import Mathlib

/-!
Verification development for the `sco1/anthro-tables` fixed-width table
decoder (`src/parser.py`).  The Python functions `extract_variable_names`,
`parse_format_spec`, `parse_data` and `do_inplace_conversions` are embedded
as executable Lean definitions; Python's exception behaviour is made
explicit through the `Except PyErr` monad.  Strings are modelled over their
ASCII character content (all data handled by the program is ASCII).
-/

deriving instance DecidableEq for Except

/-- Python exceptions that the code in `parser.py` can raise, made explicit.
Each constructor records the concrete Python exception it stands for. -/
inductive PyErr where
  /-- `ValueError(f"Unknown field specifier: '<field>'")` raised by
  `parse_format_spec` when `re.search` finds no match in a field token. -/
  | unknownFieldSpecifier (field : String)
  /-- `ValueError("invalid literal for int() with base 10: '<literal>'")`
  raised by the `int(...)` call in `parse_data`; it carries only the
  rejected literal text. -/
  | intParseError (literal : String)
  /-- `IndexError("pop from an empty deque")` raised by `row.popleft()` in
  `parse_data` when the character stream runs out. -/
  | popFromEmptyDeque
  /-- `IndexError("list index out of range")` raised by `split_line[1]` in
  `extract_variable_names` when a header line has fewer than two segments. -/
  | listIndexOutOfRange
  /-- `NameError` raised at `full_text[_idx]` when the loop in
  `extract_variable_names` never ran (empty input), leaving `_idx` unbound. -/
  | nameErrorIdx
  /-- `ValueError` raised by `pd.DataFrame(parsed_rows, columns=var_names)`
  when a row's length differs from the number of column names. -/
  | dataFrameColumnMismatch
  /-- `KeyError`: raised by `parsed_df[var_name]` on a missing column, or by
  a converter itself; `do_inplace_conversions` catches this kind only. -/
  | keyError
deriving DecidableEq

/-- ASCII decimal digit, the model of the regex class `\d` (`'0'`–`'9'`). -/
def isDigitChar (c : Char) : Bool :=
  decide (48 ≤ c.toNat) && decide (c.toNat ≤ 57)

/-- ASCII letter (`'A'`–`'Z'`, `'a'`–`'z'`). -/
def isAlphaChar (c : Char) : Bool :=
  (decide (65 ≤ c.toNat) && decide (c.toNat ≤ 90)) ||
    (decide (97 ≤ c.toNat) && decide (c.toNat ≤ 122))

/-- ASCII model of the regex class `\w`: letter, digit or underscore. -/
def isWordChar (c : Char) : Bool :=
  isAlphaChar c || isDigitChar c || c == '_'

/-- ASCII whitespace as recognised by Python's `str.strip`/`str.rstrip` and
the regex class `\s`: space, tab, newline, carriage return, vertical tab,
form feed. -/
def isPyWs (c : Char) : Bool :=
  c == ' ' || c == '\t' || c == '\n' || c == '\r' ||
    decide (c.toNat = 11) || decide (c.toNat = 12)

/-- Characters removed by `str.strip(" ()")` in `parser.py`. -/
def isHeaderStripChar (c : Char) : Bool :=
  c == ' ' || c == '(' || c == ')'

/-- Remove a maximal run of characters satisfying `p` from both ends,
the shape shared by Python's `str.strip()` and `str.strip(" ()")`. -/
def pyStripPred (p : Char → Bool) (l : List Char) : List Char :=
  ((l.dropWhile p).reverse.dropWhile p).reverse

/-- Python `s.strip()` (whitespace from both ends). -/
def pyStripWs (s : String) : String :=
  (pyStripPred isPyWs s.toList).asString

/-- Python `s.strip(" ()")` as used on the format-spec line. -/
def pyStripParens (s : String) : String :=
  (pyStripPred isHeaderStripChar s.toList).asString

/-- Python `s.rstrip()` (trailing whitespace only). -/
def pyRstrip (s : String) : String :=
  (s.toList.reverse.dropWhile isPyWs).reverse.asString

/-- Python `s.startswith("(")`. -/
def startsParen (s : String) : Bool :=
  match s.toList with
  | '(' :: _ => true
  | _ => false

/-- Digit-run accumulator for `pyInt`: after a first digit has been read,
Python's `int` accepts further digits with single interior underscores
(an underscore must be followed by a digit). -/
def pyIntDigitsAux : List Char → Nat → Option Nat
  | [], acc => some acc
  | '_' :: rest, acc =>
    match rest with
    | c :: rest' =>
      if isDigitChar c then pyIntDigitsAux rest' (acc * 10 + (c.toNat - 48)) else none
    | [] => none
  | c :: rest, acc =>
    if isDigitChar c then pyIntDigitsAux rest (acc * 10 + (c.toNat - 48)) else none

/-- The digit part accepted by Python `int`: a non-empty digit sequence with
optional single interior underscores; its decimal value. -/
def pyIntDigits : List Char → Option Nat
  | [] => none
  | c :: rest =>
    if isDigitChar c then pyIntDigitsAux rest (c.toNat - 48) else none

/-- Python's built-in `int(s)` on an ASCII string: surrounding whitespace is
ignored, one optional `+`/`-` sign, then a digit sequence (underscore
separators allowed); anything else raises `ValueError`, modelled as `none`. -/
def pyInt (s : String) : Option Int :=
  match pyStripPred isPyWs s.toList with
  | '+' :: rest => (pyIntDigits rest).map (fun n => (n : Int))
  | '-' :: rest => (pyIntDigits rest).map (fun n => -(n : Int))
  | rest => (pyIntDigits rest).map (fun n => (n : Int))

example : pyInt " -12" = some (-12) := by decide
example : pyInt "  5" = some 5 := by decide
example : pyInt "0453" = some 453 := by decide
example : pyInt "1_2" = some 12 := by decide
example : pyInt "" = none := by decide
example : pyInt " A3" = none := by decide
example : pyInt "+" = none := by decide
example : pyInt "1 2" = none := by decide

/-- The `FieldSpec` namedtuple of `parser.py`: repeat count, type character,
field width. -/
structure FieldSpec where
  n_repeats : Nat
  type : Char
  width : Nat
deriving DecidableEq

/-- Python `int` restricted to the all-digit strings produced by the regex
groups `\d*` / `\d+` (plain decimal value). -/
def digitsToNat (l : List Char) : Nat :=
  l.foldl (fun a c => a * 10 + (c.toNat - 48)) 0

/-- Python `raw_spec.count("/")`. -/
def countSlash (s : String) : Nat :=
  s.toList.count '/'

/-- `re.split(r"[,/]", s)`: every comma or slash is a delimiter; adjacent
delimiters yield empty segments.  `seg` holds the current segment reversed. -/
def pySplitDelimsAux : List Char → List Char → List String
  | [], seg => [seg.reverse.asString]
  | c :: rest, seg =>
    if c == ',' || c == '/' then seg.reverse.asString :: pySplitDelimsAux rest []
    else pySplitDelimsAux rest (c :: seg)

/-- `re.split(r"[,/]", s)` on a string. -/
def pySplitDelims (s : String) : List String :=
  pySplitDelimsAux s.toList []

/-- Groups produced when the last two characters of a maximal digit run have
to serve as the `\w` and `\d+` parts: the backtracking fallback of
`re.search(r"(\d*)(\w)(\d+)\.?", ...)` when no word character with digits
after it follows the run. -/
def specFallback (run : List Char) : Option (String × Char × String) :=
  match run.reverse with
  | a :: b :: rest => some (rest.reverse.asString, b, String.mk [a])
  | _ => none

/-- Attempt of `re.search(r"(\d*)(\w)(\d+)\.?", ...)` to match at the start
of `l`, following the engine's greedy/backtracking order: `\d*` takes the
maximal digit run; if a word character followed by at least one digit comes
next the groups are (run, that character, following digit run); otherwise
the engine backtracks two digits into the run (`specFallback`). -/
def specMatchAt (l : List Char) : Option (String × Char × String) :=
  let run := l.takeWhile isDigitChar
  match l.dropWhile isDigitChar with
  | c :: rest =>
    if isWordChar c then
      let m := rest.takeWhile isDigitChar
      if m.isEmpty then specFallback run else some (run.asString, c, m.asString)
    else specFallback run
  | [] => specFallback run

/-- `re.search(r"(\d*)(\w)(\d+)\.?", field)`: leftmost position at which the
pattern matches, or `none`. -/
def specSearch : List Char → Option (String × Char × String)
  | [] => none
  | c :: rest =>
    match specMatchAt (c :: rest) with
    | some g => some g
    | none => specSearch rest

/-- The token loop of `parse_format_spec`: search each field token, raising
`ValueError` naming the first token without a match. -/
def searchFields : List String → Except PyErr (List (String × Char × String))
  | [] => .ok []
  | f :: rest =>
    match specSearch f.toList with
    | none => .error (.unknownFieldSpecifier f)
    | some g =>
      match searchFields rest with
      | .error e => .error e
      | .ok gs => .ok (g :: gs)

/-- Build a `FieldSpec` from the regex groups as `parse_format_spec` does:
`int(n_repeats) if n_repeats else 1`, the type character, `int(field_width)`. -/
def mkFieldSpec (g : String × Char × String) : FieldSpec :=
  ⟨match g.1.toList with
    | [] => 1
    | _ :: _ => digitsToNat g.1.toList,
   g.2.1, digitsToNat g.2.2.toList⟩

/-- `parse_format_spec` of `parser.py`: `chunk_size = raw_spec.count("/") + 1`;
split the (re-stripped) spec on commas/slashes, regex-search each token
(`ValueError` on failure) and turn the groups into `FieldSpec`s. -/
def parse_format_spec (raw_spec : String) : Except PyErr (List FieldSpec × Nat) :=
  let chunk_size := countSlash raw_spec + 1
  match searchFields (pySplitDelims (pyStripParens raw_spec)) with
  | .error e => .error e
  | .ok gs => .ok (gs.map mkFieldSpec, chunk_size)

example : parse_format_spec "I4,2F4.0/F2.0" =
    .ok ([⟨1, 'I', 4⟩, ⟨2, 'F', 4⟩, ⟨1, 'F', 2⟩], 2) := by decide
example : parse_format_spec "F" = .error (.unknownFieldSpecifier "F") := by decide
example : parse_format_spec "I2,1A" = .error (.unknownFieldSpecifier "1A") := by decide
example : parse_format_spec "123A" = .ok ([⟨1, '2', 3⟩], 1) := by decide
example : parse_format_spec "19F4.0" = .ok ([⟨19, 'F', 4⟩], 1) := by decide

/-- `re.split(r"\s{2,}", s, maxsplit=2)` with fuel (one unit per consumed
character, so `fuel = length` suffices): a run of two or more whitespace
characters is a delimiter, consumed greedily; at most `splits` delimiters
are taken; `seg` holds the current segment reversed. -/
def pySplitWsFuel : Nat → List Char → Nat → List Char → List String
  | 0, l, _, seg => [(seg.reverse ++ l).asString]
  | _ + 1, [], _, seg => [seg.reverse.asString]
  | fuel + 1, c :: rest, splits, seg =>
    if splits ≠ 0 && isPyWs c && (match rest with | r :: _ => isPyWs r | [] => false) then
      seg.reverse.asString :: pySplitWsFuel fuel (rest.dropWhile isPyWs) (splits - 1) []
    else pySplitWsFuel fuel rest splits (c :: seg)

/-- `re.split(r"\s{2,}", s, maxsplit=2)` as called in
`extract_variable_names`. -/
def pySplitWs2 (s : String) : List String :=
  pySplitWsFuel s.toList.length s.toList 2 []

/-- The header loop of `extract_variable_names`: walk the lines with the
running index `_idx`; break on a line whose stripped content starts with
`(`; otherwise append segment 1 of the whitespace split (IndexError when it
does not exist).  If the loop finishes without running, `_idx` is unbound
(NameError); if it finishes after running, `_idx` is the last index.
`acc` holds the collected variable names reversed. -/
def extractLoop : List String → Nat → List String → Except PyErr (List String × Nat)
  | [], idx, acc =>
    if idx == 0 then .error .nameErrorIdx else .ok (acc.reverse, idx - 1)
  | line :: rest, idx, acc =>
    if startsParen (pyStripWs line) then .ok (acc.reverse, idx)
    else
      match (pySplitWs2 (pyStripWs line))[1]? with
      | none => .error .listIndexOutOfRange
      | some name => extractLoop rest (idx + 1) (name :: acc)

/-- `extract_variable_names` of `parser.py`: run the header loop starting
from `["SUBJECT ID"]`, then return the names, the format-spec line stripped
of spaces and parentheses, and the index one past it. -/
def extract_variable_names (full_text : List String) :
    Except PyErr (List String × String × Nat) :=
  match extractLoop full_text 0 ["SUBJECT ID"] with
  | .error e => .error e
  | .ok (names, idx) => .ok (names, pyStripParens (full_text.getD idx ""), idx + 1)

example : extract_variable_names ["  1  WEIGHT  123", " (I2/F2.0)", "12"] =
    .ok (["SUBJECT ID", "WEIGHT"], "I2/F2.0", 2) := by decide
example : extract_variable_names [] = .error .nameErrorIdx := by decide
example : extract_variable_names ["JUNK"] = .error .listIndexOutOfRange := by decide

/-- `more_itertools.chunked` with fuel (each step consumes at least one
element, so `fuel = length` suffices): break a list into pieces of length
`n`; the final piece may be shorter. -/
def chunkedFuel : Nat → Nat → List α → List (List α)
  | 0, _, _ => []
  | _ + 1, _, [] => []
  | fuel + 1, n, x :: xs => (x :: xs.take (n - 1)) :: chunkedFuel fuel n (xs.drop (n - 1))

/-- `more_itertools.chunked(iterable, n)` for `n ≥ 1`, as a list. -/
def chunked (n : Nat) (l : List α) : List (List α) :=
  chunkedFuel l.length n l

example : chunked 2 ["a", "b", "c"] = [["a", "b"], ["c"]] := by decide

/-- Pop `n` characters off the front of the deque: the
`row.popleft() for _ in range(field.width)` generator; IndexError when the
deque empties first.  Returns the popped window and the remaining deque. -/
def popN : Nat → List Char → Except PyErr (List Char × List Char)
  | 0, row => .ok ([], row)
  | _ + 1, [] => .error .popFromEmptyDeque
  | n + 1, c :: rest =>
    match popN n rest with
    | .error e => .error e
    | .ok (w, r) => .ok (c :: w, r)

/-- One field occurrence: `int("".join(row.popleft() for _ in range(width)))`;
the `int` call raises `ValueError` naming the window when it rejects it. -/
def decodeOne (width : Nat) (row : List Char) : Except PyErr (Int × List Char) :=
  match popN width row with
  | .error e => .error e
  | .ok (w, r) =>
    match pyInt w.asString with
    | some v => .ok (v, r)
    | none => .error (.intParseError w.asString)

/-- The `for _ in range(field.n_repeats)` loop: decode `n` occurrences of a
width-`width` field, threading the deque. -/
def decodeRepeats (width : Nat) : Nat → List Char → Except PyErr (List Int × List Char)
  | 0, row => .ok ([], row)
  | n + 1, row =>
    match decodeOne width row with
    | .error e => .error e
    | .ok (v, r) =>
      match decodeRepeats width n r with
      | .error e => .error e
      | .ok (vs, r') => .ok (v :: vs, r')

/-- The `for field in field_specs` loop of `parse_data`: decode every field
descriptor in order, expanded by its repeat count; whatever is left of the
deque afterwards is returned untouched (the code never looks at it again). -/
def decodeFields : List FieldSpec → List Char → Except PyErr (List Int × List Char)
  | [], row => .ok ([], row)
  | f :: rest, row =>
    match decodeRepeats f.width f.n_repeats row with
    | .error e => .error e
    | .ok (vs, r) =>
      match decodeFields rest r with
      | .error e => .error e
      | .ok (vs', r') => .ok (vs ++ vs', r')

/-- `deque("".join(chunk).rstrip())`: one group's lines concatenated, with
trailing whitespace (line padding) stripped. -/
def rowStream (chunk : List String) : List Char :=
  (pyRstrip (String.join chunk)).toList

/-- The `for chunk in miter.chunked(...)` loop: decode each group of lines
into a row of integers, stopping at the first raised exception. -/
def decodeGroups (fields : List FieldSpec) : List (List String) → Except PyErr (List (List Int))
  | [] => .ok []
  | chunk :: rest =>
    match decodeFields fields (rowStream chunk) with
    | .error e => .error e
    | .ok (vs, _) =>
      match decodeGroups fields rest with
      | .error e => .error e
      | .ok rs => .ok (vs :: rs)

/-- The table produced by
`pd.DataFrame(parsed_rows, columns=var_names).set_index("SUBJECT ID")`:
an index column (name and values, duplicates retained in order) plus the
remaining named columns as ordered rows. -/
structure DataFrame where
  index_name : String
  index : List Int
  columns : List String
  rows : List (List Int)
deriving DecidableEq

/-- `pd.DataFrame(rows, columns=cols).set_index(cols[0])`: pandas raises
`ValueError` when a row's width differs from the number of column names;
`set_index` then moves the first column (always `"SUBJECT ID"`, which
`parse_data` prepends) into the index, keeping duplicate keys as duplicate
index entries. -/
def mkDataFrame (cols : List String) (rows : List (List Int)) : Except PyErr DataFrame :=
  if rows.all (fun r => r.length == cols.length) then
    .ok ⟨cols.headD "", rows.map (fun r => r.headD 0), cols.drop 1, rows.map (List.drop 1)⟩
  else .error .dataFrameColumnMismatch

/-- `parse_data` of `parser.py`: extract the header, parse the format spec,
chunk the remaining lines by `chunk_size`, decode every chunk from its
concatenated right-stripped character stream, and assemble the indexed
table. -/
def parse_data (full_text : List String) : Except PyErr DataFrame :=
  match extract_variable_names full_text with
  | .error e => .error e
  | .ok (var_names, format_spec, data_start_idx) =>
    match parse_format_spec format_spec with
    | .error e => .error e
    | .ok (field_specs, chunk_size) =>
      match decodeGroups field_specs (chunked chunk_size (full_text.drop data_start_idx)) with
      | .error e => .error e
      | .ok parsed_rows => mkDataFrame var_names parsed_rows

/-- `Series.apply(converter)`: apply the converter to every value of a
column, propagating the first exception it raises. -/
def applyColumn (conv : Int → Except PyErr Int) : List Int → Except PyErr (List Int)
  | [] => .ok []
  | v :: rest =>
    match conv v with
    | .error e => .error e
    | .ok w =>
      match applyColumn conv rest with
      | .error e => .error e
      | .ok ws => .ok (w :: ws)

/-- Column assignment `parsed_df[name] = ...`: replace the values of the
column(s) named `name`. -/
def setCol (name : String) (vals : List Int) (df : List (String × List Int)) :
    List (String × List Int) :=
  df.map (fun c => if c.1 == name then (c.1, vals) else c)

/-- The body of the `try` block in `do_inplace_conversions`:
`parsed_df[var_name]` (KeyError when the column is absent) followed by
`.apply(converter)` (whatever the converter raises) and the assignment. -/
def convertStep (df : List (String × List Int)) (name : String)
    (conv : Int → Except PyErr Int) : Except PyErr (List (String × List Int)) :=
  match df.lookup name with
  | none => .error .keyError
  | some vals =>
    match applyColumn conv vals with
    | .error e => .error e
    | .ok nv => .ok (setCol name nv df)

/-- `do_inplace_conversions` of `parser.py`, with the DataFrame viewed as
its ordered named columns: for each mapping entry try the conversion,
`continue` on `KeyError` (from the lookup or from the converter itself),
propagate any other exception. -/
def do_inplace_conversions (df : List (String × List Int)) :
    List (String × (Int → Except PyErr Int)) → Except PyErr (List (String × List Int))
  | [] => .ok df
  | (name, conv) :: rest =>
    match convertStep df name conv with
    | .ok df' => do_inplace_conversions df' rest
    | .error .keyError => do_inplace_conversions df rest
    | .error e => .error e


/-- Total character count one record's descriptors consume after repeat
expansion. -/
def totalWidth (fields : List FieldSpec) : Nat :=
  (fields.map (fun f => f.n_repeats * f.width)).sum

theorem popN_eq_take_drop (n : Nat) (l : List Char) (h : n ≤ l.length) :
    popN n l = .ok (l.take n, l.drop n) := by
  induction n generalizing l with
  | zero => simp [popN]
  | succ n ih =>
    cases l with
    | nil => simp at h
    | cons c rest =>
      simp only [List.length_cons, Nat.succ_le_succ_iff] at h
      simp [popN, ih rest h]

theorem popN_error (n : Nat) (l : List Char) (e : PyErr) (h : popN n l = .error e) :
    e = .popFromEmptyDeque := by
  induction n generalizing l with
  | zero => simp [popN] at h
  | succ n ih =>
    cases l with
    | nil =>
      simp [popN] at h
      exact h.symm
    | cons c rest =>
      simp only [popN] at h
      split at h
      · simp at h
        subst h
        exact ih rest (by assumption)
      · simp at h

theorem popN_ok_length (n : Nat) (l w r : List Char) (h : popN n l = .ok (w, r)) :
    w.length = n ∧ l.length = n + r.length := by
  induction n generalizing l w with
  | zero =>
    simp [popN] at h
    simp [h.1.symm, h.2.symm]
  | succ n ih =>
    cases l with
    | nil => simp [popN] at h
    | cons c rest =>
      simp only [popN] at h
      split at h
      · simp at h
      · rename_i w' r' heq
        simp at h
        rw [h.2] at heq
        obtain ⟨h1, h2⟩ := ih rest w' heq
        rw [← h.1]
        constructor
        · simp [h1]
        · simp [h2]
          omega

theorem decodeOne_ok_length (width : Nat) (row : List Char) (v : Int) (r : List Char)
    (h : decodeOne width row = .ok (v, r)) : row.length = width + r.length := by
  unfold decodeOne at h
  split at h
  · simp at h
  · rename_i w r' heq
    split at h
    · simp at h
      exact h.2 ▸ (popN_ok_length width row w r' heq).2
    · simp at h

theorem decodeOne_append (width : Nat) (row extra : List Char) (h : width ≤ row.length) :
    decodeOne width (row ++ extra) =
      (decodeOne width row).map (fun p => (p.1, p.2 ++ extra)) := by
  unfold decodeOne
  rw [popN_eq_take_drop width row h,
    popN_eq_take_drop width (row ++ extra) (by simp; omega),
    List.take_append_of_le_length h, List.drop_append_of_le_length h]
  cases hi : pyInt (row.take width).asString <;> simp [hi, Except.map]

theorem decodeOne_error (width : Nat) (row : List Char) (e : PyErr)
    (h : decodeOne width row = .error e) :
    e = .popFromEmptyDeque ∨ ∃ w, e = .intParseError w ∧ pyInt w = none := by
  unfold decodeOne at h
  split at h
  · rename_i e' heq
    simp at h
    subst h
    exact .inl (popN_error width row e' heq)
  · rename_i w r' heq
    split at h
    · simp at h
    · rename_i hnone
      simp at h
      exact .inr ⟨w.asString, h.symm, hnone⟩

theorem decodeRepeats_ok_length (width n : Nat) (row : List Char) (vs : List Int)
    (r : List Char) (h : decodeRepeats width n row = .ok (vs, r)) :
    row.length = n * width + r.length := by
  induction n generalizing row vs with
  | zero =>
    simp [decodeRepeats] at h
    simp [h.2.symm]
  | succ n ih =>
    simp only [decodeRepeats] at h
    split at h
    · simp at h
    · rename_i v r1 heq1
      split at h
      · simp at h
      · rename_i vs1 r2 heq2
        simp at h
        rw [h.2] at heq2
        have e1 := decodeOne_ok_length width row v r1 heq1
        have e2 := ih r1 vs1 heq2
        rw [e1, e2]
        ring

theorem decodeRepeats_append (width n : Nat) (row extra : List Char)
    (h : n * width ≤ row.length) :
    decodeRepeats width n (row ++ extra) =
      (decodeRepeats width n row).map (fun p => (p.1, p.2 ++ extra)) := by
  induction n generalizing row with
  | zero => simp [decodeRepeats, Except.map]
  | succ n ih =>
    simp only [decodeRepeats]
    have hw : width ≤ row.length := by
      have : n * width + width ≤ row.length := by
        have := h
        ring_nf at this
        omega
      omega
    rw [decodeOne_append width row extra hw]
    cases h1 : decodeOne width row with
    | error e => simp [Except.map]
    | ok vr =>
      obtain ⟨v, r1⟩ := vr
      have hr1 : row.length = width + r1.length := decodeOne_ok_length width row v r1 h1
      simp only [Except.map]
      rw [ih r1 (by ring_nf at h ⊢; omega)]
      cases decodeRepeats width n r1 with
      | error e => simp [Except.map]
      | ok vr2 => simp [Except.map]

theorem decodeRepeats_error (width n : Nat) (row : List Char) (e : PyErr)
    (h : decodeRepeats width n row = .error e) :
    e = .popFromEmptyDeque ∨ ∃ w, e = .intParseError w ∧ pyInt w = none := by
  induction n generalizing row with
  | zero => simp [decodeRepeats] at h
  | succ n ih =>
    simp only [decodeRepeats] at h
    split at h
    · rename_i e' heq
      simp at h
      subst h
      exact decodeOne_error width row e' heq
    · rename_i v r1 heq1
      split at h
      · rename_i e' heq2
        simp at h
        subst h
        exact ih r1 heq2
      · simp at h

theorem decodeFields_ok_length (fields : List FieldSpec) (row : List Char)
    (vs : List Int) (r : List Char) (h : decodeFields fields row = .ok (vs, r)) :
    row.length = totalWidth fields + r.length := by
  induction fields generalizing row vs with
  | nil =>
    simp [decodeFields] at h
    simp [totalWidth, h.2.symm]
  | cons f rest ih =>
    simp only [decodeFields] at h
    split at h
    · simp at h
    · rename_i vs1 r1 heq1
      split at h
      · simp at h
      · rename_i vs2 r2 heq2
        simp at h
        rw [h.2] at heq2
        have e1 := decodeRepeats_ok_length f.width f.n_repeats row vs1 r1 heq1
        have e2 := ih r1 vs2 heq2
        simp only [totalWidth, List.map_cons, List.sum_cons] at *
        omega

theorem decodeFields_append (fields : List FieldSpec) (row extra : List Char)
    (h : totalWidth fields ≤ row.length) :
    decodeFields fields (row ++ extra) =
      (decodeFields fields row).map (fun p => (p.1, p.2 ++ extra)) := by
  induction fields generalizing row with
  | nil => simp [decodeFields, Except.map]
  | cons f rest ih =>
    simp only [decodeFields]
    simp only [totalWidth, List.map_cons, List.sum_cons] at h
    rw [decodeRepeats_append f.width f.n_repeats row extra (by omega)]
    cases h1 : decodeRepeats f.width f.n_repeats row with
    | error e => simp [Except.map]
    | ok vr =>
      obtain ⟨vs1, r1⟩ := vr
      have hr1 := decodeRepeats_ok_length f.width f.n_repeats row vs1 r1 h1
      simp only [Except.map]
      rw [ih r1 (by simp only [totalWidth]; omega)]
      cases decodeFields rest r1 with
      | error e => simp [Except.map]
      | ok vr2 => simp [Except.map]

theorem decodeFields_error (fields : List FieldSpec) (row : List Char) (e : PyErr)
    (h : decodeFields fields row = .error e) :
    e = .popFromEmptyDeque ∨ ∃ w, e = .intParseError w ∧ pyInt w = none := by
  induction fields generalizing row with
  | nil => simp [decodeFields] at h
  | cons f rest ih =>
    simp only [decodeFields] at h
    split at h
    · rename_i e' heq
      simp at h
      subst h
      exact decodeRepeats_error f.width f.n_repeats row e' heq
    · rename_i vs1 r1 heq1
      split at h
      · rename_i e' heq2
        simp at h
        subst h
        exact ih r1 heq2
      · simp at h

/-- C1, counterexample: a data group whose stream holds two unconsumed
trailing characters (`"34"` after the fields `I2,F2.0` have consumed
`"0712"`) decodes successfully — `parse_data` raises no error for leftover
characters, contradicting the claimed fatal `FormatError`. -/
theorem c1_leftover_silently_accepted :
    parse_data ["  1  FOO  1", " (I2,F2.0)", "071234"] =
      .ok ⟨"SUBJECT ID", [7], ["FOO"], [[12]]⟩ := by decide

/-- C1, amended: after walking the expanded descriptor list the decoder
performs no full-consumption check.  Unconsumed trailing characters are
ignored: appending `extra` beyond the consumed width leaves the decoded
values unchanged (the leftover is merely carried along), and a successful
decode consumes exactly `totalWidth` characters, no more. -/
theorem c1_no_full_consumption_check :
    (∀ (fields : List FieldSpec) (row extra : List Char),
      totalWidth fields ≤ row.length →
        decodeFields fields (row ++ extra) =
          (decodeFields fields row).map (fun p => (p.1, p.2 ++ extra))) ∧
    (∀ (fields : List FieldSpec) (row : List Char) (vs : List Int) (r : List Char),
      decodeFields fields row = .ok (vs, r) →
        row.length = totalWidth fields + r.length) :=
  ⟨decodeFields_append, decodeFields_ok_length⟩

/-- C1, witness: the amended theorem applied at one field of width 2 on the
stream `"12"` with trailing `"99"` appended. -/
theorem c1_no_full_consumption_check_witness :
    decodeFields [⟨1, 'I', 2⟩] ("12".toList ++ "99".toList) =
      (decodeFields [⟨1, 'I', 2⟩] "12".toList).map (fun p => (p.1, p.2 ++ "99".toList)) ∧
    "12".toList.length = totalWidth [⟨1, 'I', 2⟩] + ([] : List Char).length :=
  ⟨c1_no_full_consumption_check.1 [⟨1, 'I', 2⟩] "12".toList "99".toList (by decide),
   c1_no_full_consumption_check.2 [⟨1, 'I', 2⟩] "12".toList [12] [] (by decide)⟩

/-- C5, counterexample: the field window `"  5"` (width 3) contains
non-digit characters (two spaces) yet decoding succeeds, because Python's
`int` strips surrounding whitespace — contradicting the claim that every
window containing a non-digit character fails. -/
theorem c5_nondigit_window_decoded :
    parse_data ["  1  AGE  12", " (I2,F3.0)", "07  5"] =
      .ok ⟨"SUBJECT ID", [7], ["AGE"], [[5]]⟩ := by decide

/-- C5, amended: a field window makes group decoding fail only when Python
`int` rejects its text, and the raised `ValueError` carries just that
window text — no group index and no field position (the only other failure
is the deque running empty, an `IndexError`). -/
theorem c5_decode_error_carries_window_only :
    ∀ (fields : List FieldSpec) (row : List Char) (e : PyErr),
      decodeFields fields row = .error e →
        e = .popFromEmptyDeque ∨ ∃ w, e = .intParseError w ∧ pyInt w = none :=
  decodeFields_error

/-- C5, witness: the amended theorem applied to the stream `"AB"` under a
single width-2 field, whose failure is `intParseError "AB"`. -/
theorem c5_decode_error_carries_window_only_witness :
    PyErr.intParseError "AB" = .popFromEmptyDeque ∨
      ∃ w, PyErr.intParseError "AB" = .intParseError w ∧ pyInt w = none :=
  c5_decode_error_carries_window_only [⟨1, 'F', 2⟩] "AB".toList
    (.intParseError "AB") (by decide)

/-- C7: `parse_format_spec` always reports `line_wrap_count` equal to the
number of `/` characters in the raw spec plus one. -/
theorem c7_line_wrap_count :
    ∀ (raw : String) (r : List FieldSpec × Nat),
      parse_format_spec raw = .ok r → r.2 = countSlash raw + 1 := by
  intro raw r h
  unfold parse_format_spec at h
  split at h
  · simp at h
  · simp at h
    rw [← h]

/-- C7, witness: applied to the spec `"I2/F2.0"`, whose slash count is 1. -/
theorem c7_line_wrap_count_witness :
    (([⟨1, 'I', 2⟩, ⟨1, 'F', 2⟩] : List FieldSpec), 2).2 = countSlash "I2/F2.0" + 1 :=
  c7_line_wrap_count "I2/F2.0" ([⟨1, 'I', 2⟩, ⟨1, 'F', 2⟩], 2) (by decide)

/-- C9: windows with non-digit characters can decode successfully — the
width-4 window `" -12"` decodes to `-12` (Python `int` accepts sign and
surrounding whitespace) — and the `int` error branch is reached only when
`pyInt` rejects the window. -/
theorem c9_int_accepting_windows :
    parse_data ["  1  TEMP  1", " (I2,F4.0)", "07 -12"] =
      .ok ⟨"SUBJECT ID", [7], ["TEMP"], [[-12]]⟩ ∧
    ∀ (width : Nat) (row : List Char) (s : String),
      decodeOne width row = .error (.intParseError s) → pyInt s = none := by
  constructor
  · decide
  · intro width row s h
    rcases decodeOne_error width row (.intParseError s) h with h1 | ⟨w, hw, hn⟩
    · simp at h1
    · injection hw with hs
      rw [hs]
      exact hn

/-- C9, witness: the second conjunct applied at width 1 on the stream
`"A"`, whose decode fails with `intParseError "A"`. -/
theorem c9_int_accepting_windows_witness : pyInt "A" = none :=
  c9_int_accepting_windows.2 1 "A".toList "A" (by decide)

/-- C10: two records sharing subject identifier 7 are both retained in the
resulting table as duplicate index entries, with neither row overwritten
and no error raised. -/
theorem c10_duplicate_ids_retained :
    parse_data ["  1  HEIGHT  99", " (I2,F2.0)", "0712", "0734"] =
      .ok ⟨"SUBJECT ID", [7, 7], ["HEIGHT"], [[12], [34]]⟩ := by decide

/-- C6, counterexample: a converter that raises `KeyError` on the present
column `"A"` is silently swallowed by the `except KeyError` clause — the
call succeeds and the column is left unconverted, contradicting the claim
that exceptions from converters on present columns always propagate. -/
theorem c6_converter_keyerror_swallowed :
    do_inplace_conversions [("A", [1, 2])] [("A", fun _ => .error .keyError)] =
      .ok [("A", [1, 2])] := by decide

/-- C6, amended: mapping keys absent from the columns are skipped, leaving
the table unchanged for that entry; a converter exception on a present
column propagates unless it is itself a `KeyError`, which is
indistinguishable from column absence and is silently swallowed. -/
theorem c6_skip_absent_propagate_others :
    (∀ (df : List (String × List Int)) (name : String)
        (conv : Int → Except PyErr Int) (rest : List (String × (Int → Except PyErr Int))),
      df.lookup name = none →
        do_inplace_conversions df ((name, conv) :: rest) =
          do_inplace_conversions df rest) ∧
    (∀ (df : List (String × List Int)) (name : String)
        (conv : Int → Except PyErr Int) (rest : List (String × (Int → Except PyErr Int)))
        (vals : List Int) (e : PyErr),
      df.lookup name = some vals → applyColumn conv vals = .error e → e ≠ .keyError →
        do_inplace_conversions df ((name, conv) :: rest) = .error e) := by
  constructor
  · intro df name conv rest h
    have hstep : convertStep df name conv = .error .keyError := by
      simp [convertStep, h]
    simp [do_inplace_conversions, hstep]
  · intro df name conv rest vals e h1 h2 h3
    have hstep : convertStep df name conv = .error e := by
      simp [convertStep, h1, h2]
    cases e
    case keyError => exact absurd rfl h3
    all_goals simp [do_inplace_conversions, hstep]

/-- C6, witness: both conjuncts applied concretely — key `"A"` absent from a
table with column `"B"` is skipped; a converter raising `ValueError` on the
present column `"A"` propagates. -/
theorem c6_skip_absent_propagate_others_witness :
    do_inplace_conversions [("B", [1])] [("A", fun v => .ok v)] =
      do_inplace_conversions [("B", [1])] [] ∧
    do_inplace_conversions [("A", [1])] [("A", fun _ => .error (.intParseError "x"))] =
      .error (.intParseError "x") :=
  ⟨c6_skip_absent_propagate_others.1 [("B", [1])] "A" (fun v => .ok v) [] (by decide),
   c6_skip_absent_propagate_others.2 [("A", [1])] "A"
     (fun _ => .error (.intParseError "x")) [] [1] (.intParseError "x")
     (by decide) (by decide) (by decide)⟩

theorem chunkedFuel_join (fuel n : Nat) :
    ∀ (l : List String), l.length ≤ fuel → (chunkedFuel fuel (n + 1) l).flatten = l := by
  induction fuel with
  | zero =>
    intro l h
    have : l = [] := List.eq_nil_of_length_eq_zero (Nat.le_zero.mp h)
    subst this
    simp [chunkedFuel]
  | succ fuel ih =>
    intro l h
    cases l with
    | nil => simp [chunkedFuel]
    | cons x xs =>
      simp only [chunkedFuel, Nat.add_sub_cancel, List.flatten]
      rw [ih (xs.drop n) (by simp at h ⊢; omega)]
      simp [List.take_append_drop]

theorem chunkedFuel_mem_sizes (fuel n : Nat) :
    ∀ (l : List String) (c : List String),
      c ∈ chunkedFuel fuel (n + 1) l → c ≠ [] ∧ c.length ≤ n + 1 := by
  induction fuel with
  | zero => intro l c h; simp [chunkedFuel] at h
  | succ fuel ih =>
    intro l c h
    cases l with
    | nil => simp [chunkedFuel] at h
    | cons x xs =>
      simp only [chunkedFuel, Nat.add_sub_cancel] at h
      rcases List.mem_cons.mp h with h1 | h1
      · subst h1
        refine ⟨by simp, ?_⟩
        simp only [List.length_cons, List.length_take]
        omega
      · exact ih (xs.drop n) c h1

/-- C2, counterexample: a data block of three lines with `line_wrap_count`
two (not a multiple) is decoded without any error: the short final group
`["5678"]` is processed like a full one, contradicting the claimed
`FormatError`. -/
theorem c2_partial_group_decoded :
    parse_data ["  1  WEIGHT  123", " (I2/F2.0)", "12", "34", "5678"] =
      .ok ⟨"SUBJECT ID", [12, 56], ["WEIGHT"], [[34], [78]]⟩ := by decide

/-- C2, amended: `parse_data` partitions the data lines with
`more_itertools.chunked`, which never rejects a non-multiple line count:
rejoining the groups restores the lines exactly, every group is non-empty
and at most `line_wrap_count` long (the final one may be shorter), and a
document with five data lines and wrap count two decodes its short final
group like any other. -/
theorem c2_chunked_partition :
    (∀ (n : Nat) (l : List String), (chunked (n + 1) l).flatten = l) ∧
    (∀ (n : Nat) (l c : List String), c ∈ chunked (n + 1) l →
      c ≠ [] ∧ c.length ≤ n + 1) ∧
    parse_data ["  1  A  9", " (I2/F2.0)", "11", "22", "33", "44", "5566"] =
      .ok ⟨"SUBJECT ID", [11, 33, 55], ["A"], [[22], [44], [66]]⟩ :=
  ⟨fun n l => chunkedFuel_join l.length n l (Nat.le_refl _),
   fun n l c h => chunkedFuel_mem_sizes l.length n l c h,
   by decide⟩

/-- C2, witness: the partition conjuncts applied to a three-element list
chunked in twos, whose short final group is `["z"]`. -/
theorem c2_chunked_partition_witness :
    (chunked 2 ["x", "y", "z"]).flatten = ["x", "y", "z"] ∧
    ((["z"] : List String) ≠ [] ∧ (["z"] : List String).length ≤ 2) :=
  ⟨c2_chunked_partition.1 1 ["x", "y", "z"],
   c2_chunked_partition.2.1 1 ["x", "y", "z"] ["z"] (by decide)⟩

theorem extractLoop_no_paren :
    ∀ (lines : List String) (idx : Nat) (acc : List String),
      lines ≠ [] →
      (∀ l ∈ lines, startsParen (pyStripWs l) = false) →
      (∀ l ∈ lines, 2 ≤ (pySplitWs2 (pyStripWs l)).length) →
      extractLoop lines idx acc =
        .ok (acc.reverse ++ lines.map (fun l => (pySplitWs2 (pyStripWs l)).getD 1 ""),
             idx + lines.length - 1) := by
  intro lines
  induction lines with
  | nil => intro idx acc h; exact absurd rfl h
  | cons line rest ih =>
    intro idx acc _ hp hs
    have hp1 : startsParen (pyStripWs line) = false := hp line (List.mem_cons_self _ _)
    have hs1 : 2 ≤ (pySplitWs2 (pyStripWs line)).length := hs line (List.mem_cons_self _ _)
    have h1lt : 1 < (pySplitWs2 (pyStripWs line)).length := by omega
    have hget : (pySplitWs2 (pyStripWs line))[1]? =
        some ((pySplitWs2 (pyStripWs line)).getD 1 "") := by
      rw [List.getElem?_eq_getElem h1lt, List.getD_eq_getElem _ "" h1lt]
    simp only [extractLoop, hp1, Bool.false_eq_true, if_false, hget]
    cases rest with
    | nil =>
      simp [extractLoop]
    | cons l2 r2 =>
      rw [ih (idx + 1) ((pySplitWs2 (pyStripWs line)).getD 1 "" :: acc) (by simp)
        (fun l hl => hp l (List.mem_cons_of_mem _ hl))
        (fun l hl => hs l (List.mem_cons_of_mem _ hl))]
      simp only [Except.ok.injEq, Prod.mk.injEq, List.reverse_cons, List.map_cons,
        List.length_cons, List.append_assoc, List.singleton_append]
      exact ⟨trivial, by omega⟩

/-- C3, counterexample: a document whose single line does not start with
`(` is accepted without any error — the header extractor returns that very
line (stripped) as the format spec instead of failing. -/
theorem c3_no_paren_silently_returns :
    extract_variable_names ["  1  WEIGHT  123"] =
      .ok (["SUBJECT ID", "WEIGHT"], "1  WEIGHT  123", 1) := by decide

/-- C3, amended: on any non-empty document in which no line's stripped
content starts with `(` and every line splits into at least two segments,
`extract_variable_names` returns normally: every line is consumed as a
variable-definition line, the last line stripped of spaces and parentheses
is returned as the format spec, and the data start index is the document
length. -/
theorem c3_no_paren_behavior :
    ∀ (full_text : List String),
      full_text ≠ [] →
      (∀ l ∈ full_text, startsParen (pyStripWs l) = false) →
      (∀ l ∈ full_text, 2 ≤ (pySplitWs2 (pyStripWs l)).length) →
      extract_variable_names full_text =
        .ok ("SUBJECT ID" :: full_text.map (fun l => (pySplitWs2 (pyStripWs l)).getD 1 ""),
             pyStripParens (full_text.getLast?.getD ""), full_text.length) := by
  intro ft h1 h2 h3
  have hlen : 0 < ft.length := List.length_pos.mpr h1
  have hlast : ft.getLast?.getD "" = ft.getD (ft.length - 1) "" := by
    rw [List.getLast?_eq_getElem?, List.getElem?_eq_getElem (by omega),
      List.getD_eq_getElem _ "" (by omega)]
    simp
  unfold extract_variable_names
  rw [extractLoop_no_paren ft 0 ["SUBJECT ID"] h1 h2 h3]
  simp only [Except.ok.injEq, Prod.mk.injEq, List.reverse_cons, List.reverse_nil,
    List.nil_append, List.singleton_append, Nat.zero_add]
  refine ⟨trivial, ?_, by omega⟩
  rw [hlast]

/-- C3, witness: the amended theorem applied to the one-line document
`["  9  HEIGHT  55  77"]`, which has no `(` line. -/
theorem c3_no_paren_behavior_witness :
    extract_variable_names ["  9  HEIGHT  55  77"] =
      .ok ("SUBJECT ID" ::
             ["  9  HEIGHT  55  77"].map (fun l => (pySplitWs2 (pyStripWs l)).getD 1 ""),
           pyStripParens ((["  9  HEIGHT  55  77"] : List String).getLast?.getD ""),
           (["  9  HEIGHT  55  77"] : List String).length) :=
  c3_no_paren_behavior ["  9  HEIGHT  55  77"] (by decide) (by decide) (by decide)

theorem searchFields_error_mem :
    ∀ (fs : List String) (e : PyErr), searchFields fs = .error e →
      ∃ tok, tok ∈ fs ∧ e = .unknownFieldSpecifier tok ∧ specSearch tok.toList = none := by
  intro fs
  induction fs with
  | nil => intro e h; simp [searchFields] at h
  | cons f rest ih =>
    intro e h
    simp only [searchFields] at h
    split at h
    · rename_i hnone
      simp at h
      exact ⟨f, List.mem_cons_self _ _, h.symm, hnone⟩
    · rename_i g hsome
      split at h
      · rename_i e' heq
        simp at h
        subst h
        obtain ⟨tok, hm, he, hn⟩ := ih e' heq
        exact ⟨tok, List.mem_cons_of_mem _ hm, he, hn⟩
      · simp at h

theorem searchFields_ok_mem :
    ∀ (fs : List String) (gs : List (String × Char × String)), searchFields fs = .ok gs →
      ∀ tok ∈ fs, specSearch tok.toList ≠ none := by
  intro fs
  induction fs with
  | nil => intro gs _ tok hm; simp at hm
  | cons f rest ih =>
    intro gs h tok hm
    simp only [searchFields] at h
    split at h
    · simp at h
    · rename_i g hsome
      split at h
      · simp at h
      · rename_i gs' heq
        rcases List.mem_cons.mp hm with h1 | h1
        · subst h1
          intro hc
          rw [hsome] at hc
          cases hc
        · exact ih gs' heq tok h1

/-- C4, counterexample: the token `"44"` has no alphabetic type character,
so it does not match the documented grammar, yet `parse_format_spec`
accepts it (as repeat 1, type `'4'`, width 4) instead of raising — because
the code checks with `re.search` and `\w` also matches digits. -/
theorem c4_nonalpha_token_accepted :
    parse_format_spec "44" = .ok ([⟨1, '4', 4⟩], 1) := by decide

/-- C4, amended: `parse_format_spec` fails — with a `ValueError` naming an
offending token that truly has no match — exactly when some comma/slash
token contains no substring matching `(\d*)(\w)(\d+)` (with `\w` any word
character); when it succeeds, every token contains such a substring, even
tokens that fail the full documented grammar. -/
theorem c4_error_iff_unmatched_token :
    (∀ (raw : String) (e : PyErr), parse_format_spec raw = .error e →
      ∃ tok, tok ∈ pySplitDelims (pyStripParens raw) ∧
        e = .unknownFieldSpecifier tok ∧ specSearch tok.toList = none) ∧
    (∀ (raw : String) (r : List FieldSpec × Nat), parse_format_spec raw = .ok r →
      ∀ tok ∈ pySplitDelims (pyStripParens raw), specSearch tok.toList ≠ none) := by
  constructor
  · intro raw e h
    unfold parse_format_spec at h
    split at h
    · rename_i e' heq
      simp at h
      subst h
      exact searchFields_error_mem _ e' heq
    · simp at h
  · intro raw r h tok hm
    unfold parse_format_spec at h
    split at h
    · simp at h
    · rename_i gs heq
      exact searchFields_ok_mem _ gs heq tok hm

/-- C4, witness: the error direction applied to the spec `"F"` — the
documented example of a width-less token — which fails naming `"F"`. -/
theorem c4_error_iff_unmatched_token_witness :
    ∃ tok, tok ∈ pySplitDelims (pyStripParens "F") ∧
      PyErr.unknownFieldSpecifier "F" = .unknownFieldSpecifier tok ∧
      specSearch tok.toList = none :=
  c4_error_iff_unmatched_token.1 "F" (.unknownFieldSpecifier "F") (by decide)

theorem alpha_not_digit (c : Char) (h : isAlphaChar c = true) : isDigitChar c = false := by
  simp only [isAlphaChar, Bool.or_eq_true, Bool.and_eq_true, decide_eq_true_eq] at h
  rw [Bool.eq_false_iff]
  intro hd
  simp only [isDigitChar, Bool.and_eq_true, decide_eq_true_eq] at hd
  omega

theorem ge48_of_digit (c : Char) (h : isDigitChar c = true) : 48 ≤ c.toNat := by
  simp only [isDigitChar, Bool.and_eq_true, decide_eq_true_eq] at h
  exact h.1

theorem ge48_of_alpha (c : Char) (h : isAlphaChar c = true) : 48 ≤ c.toNat := by
  simp only [isAlphaChar, Bool.or_eq_true, Bool.and_eq_true, decide_eq_true_eq] at h
  omega

theorem plain_of_ge48 (ch : Char) (h : 48 ≤ ch.toNat) :
    isHeaderStripChar ch = false ∧ (ch == ',' || ch == '/') = false := by
  have hs : ch ≠ ' ' := fun he => absurd h (by subst he; decide)
  have h1 : ch ≠ '(' := fun he => absurd h (by subst he; decide)
  have h2 : ch ≠ ')' := fun he => absurd h (by subst he; decide)
  have h3 : ch ≠ ',' := fun he => absurd h (by subst he; decide)
  have h4 : ch ≠ '/' := fun he => absurd h (by subst he; decide)
  constructor
  · simp [isHeaderStripChar, hs, h1, h2]
  · simp [h3, h4]

theorem takeWhile_digits_append (reps : List Char) (c : Char) (t : List Char)
    (hr : ∀ d ∈ reps, isDigitChar d = true) (hc : isDigitChar c = false) :
    (reps ++ c :: t).takeWhile isDigitChar = reps ∧
      (reps ++ c :: t).dropWhile isDigitChar = c :: t := by
  induction reps with
  | nil => simp [List.takeWhile_cons, List.dropWhile_cons, hc]
  | cons d ds ih =>
    have hd : isDigitChar d = true := hr d (List.mem_cons_self _ _)
    obtain ⟨h1, h2⟩ := ih (fun x hx => hr x (List.mem_cons_of_mem _ hx))
    simp [List.takeWhile_cons, List.dropWhile_cons, hd, h1, h2]

theorem takeWhile_all_digits (l : List Char) (h : ∀ d ∈ l, isDigitChar d = true) :
    l.takeWhile isDigitChar = l := by
  induction l with
  | nil => rfl
  | cons d ds ih =>
    simp [List.takeWhile_cons, h d (List.mem_cons_self _ _),
      ih (fun x hx => h x (List.mem_cons_of_mem _ hx))]

theorem dropWhile_none (p : Char → Bool) (l : List Char) (h : ∀ ch ∈ l, p ch = false) :
    l.dropWhile p = l := by
  cases l with
  | nil => rfl
  | cons c t => simp [List.dropWhile_cons, h c (List.mem_cons_self _ _)]

theorem stripPred_id (p : Char → Bool) (l : List Char) (h : ∀ ch ∈ l, p ch = false) :
    pyStripPred p l = l := by
  unfold pyStripPred
  rw [dropWhile_none p l h,
    dropWhile_none p l.reverse (fun ch hm => h ch (List.mem_reverse.mp hm))]
  simp

theorem splitDelimsAux_no_delim :
    ∀ (l seg : List Char), (∀ ch ∈ l, (ch == ',' || ch == '/') = false) →
      pySplitDelimsAux l seg = [(seg.reverse ++ l).asString] := by
  intro l
  induction l with
  | nil => intro seg _; simp [pySplitDelimsAux]
  | cons c t ih =>
    intro seg h
    have hc : (c == ',' || c == '/') = false := h c (List.mem_cons_self _ _)
    simp only [pySplitDelimsAux, hc, Bool.false_eq_true, if_false]
    rw [ih (c :: seg) (fun x hx => h x (List.mem_cons_of_mem _ hx))]
    simp

theorem specSearch_of_matchAt (l : List Char) (g : String × Char × String)
    (hne : l ≠ []) (h : specMatchAt l = some g) : specSearch l = some g := by
  cases l with
  | nil => exact absurd rfl hne
  | cons c t => simp [specSearch, h]

theorem specMatchAt_wellformed (reps wid dec : List Char) (c : Char)
    (hr : ∀ d ∈ reps, isDigitChar d = true)
    (hc : isAlphaChar c = true)
    (hw : wid ≠ [])
    (hwd : ∀ d ∈ wid, isDigitChar d = true)
    (hdec : dec = [] ∨ ∃ ds, dec = '.' :: ds) :
    specMatchAt (reps ++ c :: (wid ++ dec)) = some (reps.asString, c, wid.asString) := by
  have hcd : isDigitChar c = false := alpha_not_digit c hc
  obtain ⟨ht, hd⟩ := takeWhile_digits_append reps c (wid ++ dec) hr hcd
  have hword : isWordChar c = true := by simp [isWordChar, hc]
  have hm : (wid ++ dec).takeWhile isDigitChar = wid := by
    rcases hdec with h | ⟨ds, h⟩
    · subst h
      simpa using takeWhile_all_digits wid hwd
    · subst h
      exact (takeWhile_digits_append wid '.' ds hwd (by decide)).1
  have hmne : wid.isEmpty = false := by cases wid with
    | nil => exact absurd rfl hw
    | cons x xs => rfl
  simp only [specMatchAt, ht, hd, hword, if_true, hm, hmne, Bool.false_eq_true, if_false]

/-- C8: for every token conforming to the documented grammar — optional
repeat digits, one alphabetic type character, non-empty width digits,
optional `.`-prefixed decimal suffix — `parse_format_spec` yields a single
`FieldSpec` whose repeat count is 1 when the repeat digits are absent and
their decimal value otherwise, with the width's decimal value. -/
theorem c8_repeat_count_default :
    ∀ (reps wid dec : List Char) (c : Char),
      (∀ d ∈ reps, isDigitChar d = true) →
      isAlphaChar c = true →
      wid ≠ [] →
      (∀ d ∈ wid, isDigitChar d = true) →
      (dec = [] ∨ ∃ ds, dec = '.' :: ds ∧ ∀ d ∈ ds, isDigitChar d = true) →
      parse_format_spec (reps ++ c :: (wid ++ dec)).asString =
        .ok ([⟨if reps = [] then 1 else digitsToNat reps, c, digitsToNat wid⟩], 1) := by
  intro reps wid dec c hr hc hw hwd hdec
  set tok := reps ++ c :: (wid ++ dec) with htok
  have hplain : ∀ ch ∈ tok, isHeaderStripChar ch = false ∧ (ch == ',' || ch == '/') = false := by
    intro ch hm
    rw [htok] at hm
    simp only [List.mem_append, List.mem_cons] at hm
    rcases hm with h1 | h1 | h1 | h1
    · exact plain_of_ge48 ch (ge48_of_digit ch (hr ch h1))
    · subst h1
      exact plain_of_ge48 ch (ge48_of_alpha ch hc)
    · exact plain_of_ge48 ch (ge48_of_digit ch (hwd ch h1))
    · rcases hdec with h2 | ⟨ds, h2, hds⟩
      · rw [h2] at h1
        simp at h1
      · rw [h2] at h1
        rcases List.mem_cons.mp h1 with h3 | h3
        · subst h3
          exact ⟨by decide, by decide⟩
        · exact plain_of_ge48 ch (ge48_of_digit ch (hds ch h3))
  have htl : (tok.asString).toList = tok := rfl
  have hstrip : pyStripParens tok.asString = tok.asString := by
    unfold pyStripParens
    rw [htl, stripPred_id isHeaderStripChar tok (fun ch hm => (hplain ch hm).1)]
  have hslash : countSlash tok.asString = 0 := by
    unfold countSlash
    rw [htl, List.count_eq_zero]
    intro hm
    have := (hplain '/' hm).2
    simp at this
  have hsplit : pySplitDelims tok.asString = [tok.asString] := by
    unfold pySplitDelims
    rw [htl, splitDelimsAux_no_delim tok [] (fun ch hm => (hplain ch hm).2)]
    simp
  have hne : tok ≠ [] := by
    rw [htok]
    cases reps <;> simp
  have hsearch : specSearch tok = some (reps.asString, c, wid.asString) :=
    specSearch_of_matchAt tok _ hne
      (specMatchAt_wellformed reps wid dec c hr hc hw hwd
        (hdec.imp id (fun ⟨ds, h2, _⟩ => ⟨ds, h2⟩)))
  unfold parse_format_spec
  rw [hstrip, hsplit]
  simp only [searchFields, htl, hsearch, hslash]
  cases reps <;> rfl

/-- C8, witness: the theorem applied to the token `19F4.0`, giving repeat
count 19, type `F`, width 4. -/
theorem c8_repeat_count_default_witness :
    parse_format_spec ((['1', '9'] ++ 'F' :: (['4'] ++ ['.', '0'])) : List Char).asString =
      .ok ([⟨if (['1', '9'] : List Char) = [] then 1 else digitsToNat ['1', '9'],
            'F', digitsToNat ['4']⟩], 1) :=
  c8_repeat_count_default ['1', '9'] ['4'] ['.', '0'] 'F'
    (by decide) (by decide) (by decide) (by decide) (.inr ⟨['0'], rfl, by decide⟩)
